import Mathlib

/-!
Shallow embedding of the react-data-table component (src/DataTable.tsx):
the derived-state pipeline (filter → sort → paginate), the interaction
handlers (sort cycling, search change, selection toggles) and the
page-button window computation, together with theorems checking the
specification's statements about them.
-/

namespace DataTable

/-- Sort direction: the two non-null values of the TS type
`'asc' | 'desc' | null`; the `null` case is modelled as `none` of
`Option SortDir`. -/
inductive SortDir where
  | asc
  | desc
deriving DecidableEq

/-- Row identifiers: the TS type `string | number`. -/
abbrev RowId := String ⊕ Nat

/-- A data record: the required `id` plus the record's fields as seen by the
component. The component reads a field only through the `val != null` check
and the `String(val)` conversion, so `cells k = none` models a `null` or
`undefined` field and `cells k = some s` a non-null field whose JS string
conversion is `s`. -/
structure Row where
  id : RowId
  cells : String → Option String

/-- Column descriptor. The presentation-only attributes (`width`, `render`)
play no role in the pipeline and are omitted. -/
structure Column where
  key : String
  title : String
  sortable : Bool
  filterable : Bool

/-! ### JS string primitives used by the component -/

/-- JS `String.prototype.toLowerCase` (per-character case mapping). -/
def jsToLower (s : String) : String :=
  ⟨s.data.map Char.toLower⟩

/-- JS `String.prototype.trim`: strip whitespace at both ends. -/
def jsTrim (s : String) : String :=
  ⟨((s.data.dropWhile Char.isWhitespace).reverse.dropWhile Char.isWhitespace).reverse⟩

/-- Does the character list `s` start with `q`? (helper for `jsIncludes`). -/
def seqStartsWith : List Char → List Char → Bool
  | _, [] => true
  | [], _ :: _ => false
  | a :: as, b :: bs => a == b && seqStartsWith as bs

/-- Does the character list `s` contain `q` as a contiguous run? -/
def seqContains : List Char → List Char → Bool
  | [], q => q.isEmpty
  | a :: as, q => seqStartsWith (a :: as) q || seqContains as q

/-- JS `String.prototype.includes`: substring test. -/
def jsIncludes (s q : String) : Bool :=
  seqContains s.data q.data

/-! ### The filter stage -/

/-- The filter stage (`filtered`, DataTable.tsx lines 77-86):
`if (!search.trim()) return data;` (the empty string is the only falsy
string) and otherwise keep the rows where some column's field value is
non-null and its lower-cased string form contains
`q = search.toLowerCase()`. Note that `q` is the lower-cased *untrimmed*
search string; `trim` is used only for the emptiness test. -/
def filtered (columns : List Column) (data : List Row) (search : String) :
    List Row :=
  if jsTrim search = "" then data
  else
    data.filter fun row =>
      columns.any fun col =>
        (row.cells col.key).any fun v =>
          jsIncludes (jsToLower v) (jsToLower search)

/-! ### The sort stage -/

/-- The comparator passed to `Array.prototype.sort` (lines 91-98).
`strCmp` abstracts `String.prototype.localeCompare(·, undefined,
{numeric: true})`, whose exact integer values are locale/host defined.
A null/undefined `aVal` compares as 1, a null/undefined `bVal` as -1, and
`sortDir === 'desc'` negates the string comparison only. -/
def jsCmp (strCmp : String → String → Int) (k : String) (d : SortDir)
    (a b : Row) : Int :=
  match a.cells k, b.cells k with
  | none, _ => 1
  | some _, none => -1
  | some av, some bv =>
      match d with
      | SortDir.asc => strCmp av bv
      | SortDir.desc => -(strCmp av bv)

/-- Stable insertion step: `x` is placed before the first element `y` with
`cmp x y ≤ 0`, so elements comparing equal keep their relative order. -/
def insertBy {α : Type} (cmp : α → α → Int) (x : α) : List α → List α
  | [] => [x]
  | y :: ys => if cmp x y ≤ 0 then x :: y :: ys else y :: insertBy cmp x ys

/-- Stable comparison sort, modelling `Array.prototype.sort` (which
ECMAScript requires to be stable). -/
def sortBy {α : Type} (cmp : α → α → Int) : List α → List α
  | [] => []
  | x :: xs => insertBy cmp x (sortBy cmp xs)

/-- The sort stage (`sorted`, lines 89-99): `if (!sortKey || !sortDir)
return filtered;` — note `!sortKey` is JS-falsy, so the empty-string column
key also bypasses sorting — otherwise sort a copy of the filtered list by
`jsCmp`. -/
def sorted (strCmp : String → String → Int) (sortKey : Option String)
    (sortDir : Option SortDir) (l : List Row) : List Row :=
  match sortKey, sortDir with
  | some k, some d => if k = "" then l else sortBy (jsCmp strCmp k d) l
  | _, _ => l

/-! ### The pagination stage -/

/-- Total pages: `Math.max(1, Math.ceil(sorted.length / pageSize))`
(line 102); for `1 ≤ p` the natural-number formula `(n + p - 1) / p` is
the ceiling of the rational `n / p`. -/
def totalPages (n p : Nat) : Nat :=
  max 1 ((n + p - 1) / p)

/-- Safe current page: `Math.min(currentPage, totalPages)` (line 103). -/
def safeCurrentPage (cp t : Nat) : Nat :=
  min cp t

/-- The visible slice (`paginated`, lines 104-107):
`sorted.slice(start, start + pageSize)` with
`start = (safeCurrentPage - 1) * pageSize`. The component keeps
`currentPage ≥ 1` (every setter clamps with `Math.max(1, ·)` or assigns a
page number ≥ 1), so the natural-number subtraction agrees with JS. -/
def paginated (l : List Row) (p cp : Nat) : List Row :=
  ((l.drop ((safeCurrentPage cp (totalPages l.length p) - 1) * p)).take p)

/-! ### Selection -/

/-- Single-row toggle (`toggleRow`, lines 124-135): flip membership of
`id` in the selection set. -/
def toggleRow (id : RowId) (prev : Finset RowId) : Finset RowId :=
  if id ∈ prev then prev.erase id else insert id prev

/-- Select-all toggle (`toggleAll`, lines 137-146): over the visible
(paginated) ids, if all are already selected remove each of them,
otherwise add each of them. -/
def toggleAll (visibleIds : List RowId) (prev : Finset RowId) :
    Finset RowId :=
  let allSelected := visibleIds.all fun id => decide (id ∈ prev)
  visibleIds.foldl
    (fun next id => if allSelected then next.erase id else insert id next)
    prev

/-- The argument passed to `onSelectionChange`:
`data.filter((r) => next.has(r.id))` (lines 130 and 143). -/
def selectedRows (data : List Row) (next : Finset RowId) : List Row :=
  data.filter fun r => decide (r.id ∈ next)

/-! ### Component state and handlers -/

/-- The component's interaction state (lines 69-73; the hover highlight is
presentation-only and omitted). -/
structure TableState where
  search : String
  sortKey : Option String
  sortDir : Option SortDir
  currentPage : Nat
  selected : Finset RowId

/-- The `useState` defaults (lines 69-73). -/
def initialState : TableState :=
  { search := "", sortKey := none, sortDir := none, currentPage := 1,
    selected := ∅ }

/-- The direction chosen by `handleSort` (lines 111-116): cycling
asc → desc → null on the active column, ascending otherwise. -/
def nextDir (sortKey : Option String) (sortDir : Option SortDir)
    (key : String) : Option SortDir :=
  if sortKey = some key then
    match sortDir with
    | some SortDir.asc => some SortDir.desc
    | some SortDir.desc => none
    | none => some SortDir.asc
  else some SortDir.asc

/-- The column-header sort handler (`handleSort`, lines 109-122):
`setSortKey(dir ? key : null); setSortDir(dir);` — `dir` is truthy exactly
when it is non-null. -/
def handleSort (s : TableState) (key : String) : TableState :=
  { s with
    sortKey := if (nextDir s.sortKey s.sortDir key).isSome then some key
               else none,
    sortDir := nextDir s.sortKey s.sortDir key }

/-- The search input's onChange handler (line 160):
`setSearch(e.target.value); setCurrentPage(1);`. -/
def onSearchChange (s : TableState) (text : String) : TableState :=
  { s with search := text, currentPage := 1 }

/-! ### Page-button window -/

/-- The numbered page buttons (lines 241-253):
`Array.from({length: Math.min(5, totalPages)}, (_, i) => ...)` with
`page = Math.max(1, Math.min(safeCurrentPage - 2, totalPages - 4)) + i`,
dropping (`return null`) any `page > totalPages`. Computed over `Int`
because the JS intermediate values `safeCurrentPage - 2` and
`totalPages - 4` may be negative. -/
def pageButtons (safePage t : Int) : List Int :=
  ((List.range (min 5 t).toNat).map
      (fun (i : Nat) => max 1 (min (safePage - 2) (t - 4)) + (i : Int))).filter
    fun page => decide (page ≤ t)

/-! ### Helper lemmas -/

lemma option_any_eq_true (o : Option String) (f : String → Bool) :
    o.any f = true ↔ ∃ v, o = some v ∧ f v = true := by
  cases o <;> simp [Option.any]

/-! ### C1: the filter stage -/

/-- Claim-side predicate, following the spec's words (for comparison with
the code): does some column's non-null field value, lower-cased, contain
the lower-cased *trimmed* search string? -/
def specMatchesTrimmed (columns : List Column) (row : Row)
    (search : String) : Bool :=
  columns.any fun col =>
    (row.cells col.key).any fun v =>
      jsIncludes (jsToLower v) (jsToLower (jsTrim search))

/-- A one-column configuration used in concrete counterexamples. -/
def colName : Column := ⟨"name", "Name", false, false⟩

/-- A record whose `name` field is the string `"ba"`. -/
def rBa : Row := ⟨Sum.inr 1, fun k => if k = "name" then some "ba" else none⟩

/-- C1 counterexample: with one column `name`, one record whose `name`
value is `"ba"`, and search string `" a"` (whose trimmed form `"a"` is
non-empty), the record's value contains the lower-cased trimmed search
string, yet the filter stage excludes it — the code matches against the
lower-cased *untrimmed* search string. -/
theorem filter_trimmed_counterexample :
    jsTrim " a" ≠ "" ∧
    specMatchesTrimmed [colName] rBa " a" = true ∧
    (filtered [colName] [rBa] " a").length = 0 :=
  ⟨by decide, by decide, by decide⟩

/-- C1 (amended): for a search string whose trimmed form is non-empty, the
filter stage returns exactly the subsequence of records for which at least
one column's field value is non-null and, converted to a string and
lower-cased, contains the lower-cased *untrimmed* search string as a
substring; every excluded record matches in no column. -/
theorem filtered_spec (columns : List Column) (data : List Row)
    (search : String) (h : jsTrim search ≠ "") :
    (filtered columns data search).Sublist data ∧
    ∀ r, r ∈ filtered columns data search ↔
      r ∈ data ∧ ∃ col ∈ columns, ∃ v, r.cells col.key = some v ∧
        jsIncludes (jsToLower v) (jsToLower search) = true := by
  rw [filtered, if_neg h]
  refine ⟨List.filter_sublist _, fun r => ?_⟩
  rw [List.mem_filter]
  simp only [List.any_eq_true, option_any_eq_true]

/-- C1 witness: a concrete active search where the amended theorem applies:
the filtered output is a subsequence of the data. -/
theorem filtered_spec_witness :
    jsTrim "A" ≠ "" ∧ (filtered [colName] [rBa] "A").Sublist [rBa] :=
  ⟨by decide, (filtered_spec [colName] [rBa] "A" (by decide)).1⟩

/-! ### C9: the sort-state invariant -/

/-- The spec's invariant: direction is none iff active column is none. -/
def sortInvariant (s : TableState) : Prop :=
  s.sortDir = none ↔ s.sortKey = none

lemma sortInvariant_handleSort (s : TableState) (key : String) :
    sortInvariant (handleSort s key) := by
  rcases h : nextDir s.sortKey s.sortDir key with _ | d <;>
    simp [handleSort, sortInvariant, h]

lemma sortInvariant_foldl (keys : List String) :
    ∀ s : TableState, sortInvariant s →
      sortInvariant (keys.foldl handleSort s) := by
  induction keys with
  | nil => exact fun _ h => h
  | cons k ks ih =>
      exact fun s _ => ih (handleSort s k) (sortInvariant_handleSort s k)

/-- C9: the invariant "direction is none iff active sort column is none"
holds in the initial state, is (unconditionally) preserved by every call
of the column-header sort handler, and therefore holds after every
sequence of sort activations. -/
theorem sort_invariant_preserved :
    sortInvariant initialState ∧
    (∀ (s : TableState) (key : String), sortInvariant (handleSort s key)) ∧
    ∀ keys : List String,
      sortInvariant (List.foldl handleSort initialState keys) :=
  ⟨by simp [initialState, sortInvariant], sortInvariant_handleSort,
    fun keys => sortInvariant_foldl keys initialState
      (by simp [initialState, sortInvariant])⟩

/-! ### C10: search edits reset the page -/

/-- C10: every edit of the search text sets the current page to 1 (and
stores the new text), regardless of the previous state. -/
theorem onSearchChange_resets_page (s : TableState) (text : String) :
    (onSearchChange s text).currentPage = 1 ∧
    (onSearchChange s text).search = text :=
  ⟨rfl, rfl⟩

/-! ### C5: the sort cycle -/

/-- C5: starting unsorted, repeated activation of the same column cycles
unsorted → ascending → descending → unsorted: the third activation
returns the full state to "unsorted" (so the sort stage passes the
filtered sequence through unchanged), a fourth activation reproduces the
first, and activating a column different from the currently active one
always sets that column ascending. -/
theorem handleSort_cycle (s : TableState) (key other : String) :
    (s.sortKey = none →
      handleSort s key =
        { s with sortKey := some key, sortDir := some SortDir.asc } ∧
      handleSort (handleSort s key) key =
        { s with sortKey := some key, sortDir := some SortDir.desc } ∧
      handleSort (handleSort (handleSort s key) key) key =
        { s with sortKey := none, sortDir := none } ∧
      (∀ (strCmp : String → String → Int) (l : List Row),
        sorted strCmp
          (handleSort (handleSort (handleSort s key) key) key).sortKey
          (handleSort (handleSort (handleSort s key) key) key).sortDir l
          = l) ∧
      handleSort (handleSort (handleSort (handleSort s key) key) key) key
        = handleSort s key) ∧
    (s.sortKey ≠ some other →
      handleSort s other =
        { s with sortKey := some other, sortDir := some SortDir.asc }) := by
  constructor
  · intro h
    have h1 : handleSort s key =
        { s with sortKey := some key, sortDir := some SortDir.asc } := by
      simp [handleSort, nextDir, h]
    have h2 : handleSort
        ({ s with sortKey := some key, sortDir := some SortDir.asc }) key =
        { s with sortKey := some key, sortDir := some SortDir.desc } := by
      simp [handleSort, nextDir]
    have h3 : handleSort
        ({ s with sortKey := some key, sortDir := some SortDir.desc }) key =
        { s with sortKey := none, sortDir := none } := by
      simp [handleSort, nextDir]
    have h4 : handleSort ({ s with sortKey := none, sortDir := none }) key =
        { s with sortKey := some key, sortDir := some SortDir.asc } := by
      simp [handleSort, nextDir, h]
    refine ⟨h1, ?_, ?_, ?_, ?_⟩
    · rw [h1, h2]
    · rw [h1, h2, h3]
    · rw [h1, h2, h3]
      intro strCmp l
      simp [sorted]
    · rw [h1, h2, h3, h4]
  · intro h
    simp [handleSort, nextDir, h]

/-- C5 witness: from the initial (unsorted) state, three activations of
the `name` column return the sort state to unsorted, and the initial
state's active column differs from `x`, so activating `x` sets ascending. -/
theorem handleSort_cycle_witness :
    initialState.sortKey = none ∧
    handleSort (handleSort (handleSort initialState "name") "name") "name"
      = { initialState with sortKey := none, sortDir := none } ∧
    initialState.sortKey ≠ some "x" ∧
    handleSort initialState "x" =
      { initialState with
          sortKey := some "x", sortDir := some SortDir.asc } :=
  ⟨rfl, (((handleSort_cycle initialState "name" "x").1 rfl).2.2.1),
    by decide, ((handleSort_cycle initialState "name" "x").2 (by decide))⟩

/-! ### C7: the selection-change callback -/

/-- C7: after a single-row toggle or a select-all toggle, the value passed
to `onSelectionChange` is exactly the records of the complete original
data array whose identifiers are in the updated selection set, listed in
the original data array's order (a subsequence of `data`, not merely the
visible page). -/
theorem selection_callback_spec (data : List Row) (prev : Finset RowId)
    (id : RowId) (visibleIds : List RowId) :
    (selectedRows data (toggleRow id prev)).Sublist data ∧
    (∀ r, r ∈ selectedRows data (toggleRow id prev) ↔
      r ∈ data ∧ r.id ∈ toggleRow id prev) ∧
    (selectedRows data (toggleAll visibleIds prev)).Sublist data ∧
    ∀ r, r ∈ selectedRows data (toggleAll visibleIds prev) ↔
      r ∈ data ∧ r.id ∈ toggleAll visibleIds prev := by
  refine ⟨List.filter_sublist _, fun r => ?_, List.filter_sublist _,
    fun r => ?_⟩ <;> simp [selectedRows, List.mem_filter]

/-! ### C6 and C2: the select-all toggle -/

lemma mem_foldl_erase (x : RowId) :
    ∀ (ids : List RowId) (s : Finset RowId),
      x ∈ ids.foldl (fun acc id => acc.erase id) s ↔ x ∈ s ∧ x ∉ ids
  | [], s => by simp
  | i :: ids, s => by
      rw [List.foldl_cons, mem_foldl_erase x ids (s.erase i)]
      simp only [Finset.mem_erase, List.mem_cons, not_or]
      tauto

lemma mem_foldl_insert (x : RowId) :
    ∀ (ids : List RowId) (s : Finset RowId),
      x ∈ ids.foldl (fun acc id => insert id acc) s ↔ x ∈ s ∨ x ∈ ids
  | [], s => by simp
  | i :: ids, s => by
      rw [List.foldl_cons, mem_foldl_insert x ids (insert i s)]
      simp only [Finset.mem_insert, List.mem_cons]
      tauto

lemma toggleAll_eq (ids : List RowId) (prev : Finset RowId) :
    toggleAll ids prev =
      if ids.all (fun id => decide (id ∈ prev)) = true
      then ids.foldl (fun acc id => acc.erase id) prev
      else ids.foldl (fun acc id => insert id acc) prev := by
  by_cases h : ids.all (fun id => decide (id ∈ prev)) = true <;>
    simp only [toggleAll, h, if_true, if_false, Bool.false_eq_true]

lemma toggleAll_mem_all {ids : List RowId} {prev : Finset RowId}
    (h : ∀ id ∈ ids, id ∈ prev) (x : RowId) :
    x ∈ toggleAll ids prev ↔ x ∈ prev ∧ x ∉ ids := by
  rw [toggleAll_eq, if_pos (by simpa [List.all_eq_true] using h),
    mem_foldl_erase]

lemma toggleAll_mem_not_all {ids : List RowId} {prev : Finset RowId}
    (h : ¬ ∀ id ∈ ids, id ∈ prev) (x : RowId) :
    x ∈ toggleAll ids prev ↔ x ∈ prev ∨ x ∈ ids := by
  rw [toggleAll_eq, if_neg (by simpa [List.all_eq_true] using h),
    mem_foldl_insert]

/-- C6: the select-all toggle operates only over the visible rows' ids: if
all of them are already selected it removes exactly them, otherwise it
adds all of them; an id not on the visible page keeps its membership
unchanged in both cases. -/
theorem toggleAll_spec (visibleIds : List RowId) (prev : Finset RowId) :
    ((∀ id ∈ visibleIds, id ∈ prev) →
      ∀ x, x ∈ toggleAll visibleIds prev ↔ x ∈ prev ∧ x ∉ visibleIds) ∧
    ((¬ ∀ id ∈ visibleIds, id ∈ prev) →
      ∀ x, x ∈ toggleAll visibleIds prev ↔ x ∈ prev ∨ x ∈ visibleIds) ∧
    ∀ x, x ∉ visibleIds →
      (x ∈ toggleAll visibleIds prev ↔ x ∈ prev) := by
  refine ⟨fun h x => toggleAll_mem_all h x,
    fun h x => toggleAll_mem_not_all h x, fun x hx => ?_⟩
  rcases Classical.em (∀ id ∈ visibleIds, id ∈ prev) with h | h
  · rw [toggleAll_mem_all h x]
    tauto
  · rw [toggleAll_mem_not_all h x]
    tauto

/-- C6 witness: with visible ids `{1, 2}` (as numbers) and previous
selection `{1}`, not all visible rows are selected, so the toggle selects
them all: id 2 becomes selected. -/
theorem toggleAll_spec_witness :
    (¬ ∀ id ∈ [Sum.inr 1, Sum.inr 2], id ∈ ({Sum.inr 1} : Finset RowId)) ∧
    ((Sum.inr 2 : RowId) ∈
        toggleAll [Sum.inr 1, Sum.inr 2] ({Sum.inr 1} : Finset RowId) ↔
      (Sum.inr 2 : RowId) ∈ ({Sum.inr 1} : Finset RowId) ∨
        (Sum.inr 2 : RowId) ∈ [Sum.inr 1, Sum.inr 2]) :=
  ⟨fun hall => absurd (hall (Sum.inr 2) (by simp)) (by decide),
    (toggleAll_spec [Sum.inr 1, Sum.inr 2] {Sum.inr 1}).2.1
      (fun hall => absurd (hall (Sum.inr 2) (by simp)) (by decide))
      (Sum.inr 2)⟩

/-- C2 counterexample: with visible ids `[1, 2]` and previous selection
`{1}` (a partially selected page), toggling select-all twice does not
restore the visible page's membership: id 1 was selected before and is
unselected after the two toggles (the first toggle selects both, the
second deselects both). -/
theorem toggleAll_twice_counterexample :
    (Sum.inr 1 : RowId) ∈ ({Sum.inr 1} : Finset RowId) ∧
    (Sum.inr 1 : RowId) ∈ ([Sum.inr 1, Sum.inr 2] : List RowId) ∧
    (Sum.inr 1 : RowId) ∉
      toggleAll [Sum.inr 1, Sum.inr 2]
        (toggleAll [Sum.inr 1, Sum.inr 2] ({Sum.inr 1} : Finset RowId)) :=
  ⟨by decide, by simp, by decide⟩

/-- C2 (amended): toggling select-all twice in succession, with no other
state change in between, restores the selection set's membership on the
visible page's identifiers *provided* the visible rows start out either
all selected or none selected; for a partially selected page the two
toggles instead leave every visible row deselected (the off-page
identifiers are untouched in every case). -/
theorem toggleAll_twice_restores (visibleIds : List RowId)
    (prev : Finset RowId)
    (h : (∀ id ∈ visibleIds, id ∈ prev) ∨
      (∀ id ∈ visibleIds, id ∉ prev)) :
    ∀ x ∈ visibleIds,
      (x ∈ toggleAll visibleIds (toggleAll visibleIds prev) ↔ x ∈ prev) := by
  intro x hx
  rcases h with h | h
  · -- all visible rows selected: first toggle removes them all
    have h1 : ∀ y, y ∈ toggleAll visibleIds prev ↔ y ∈ prev ∧ y ∉ visibleIds :=
      toggleAll_mem_all h
    have hnot : ¬ ∀ id ∈ visibleIds, id ∈ toggleAll visibleIds prev := by
      intro hall
      exact ((h1 x).mp (hall x hx)).2 hx
    rw [toggleAll_mem_not_all hnot x, h1 x]
    have hp := h x hx
    tauto
  · -- no visible row selected: first toggle adds them all
    have hnot : ¬ ∀ id ∈ visibleIds, id ∈ prev := fun hall => h x hx (hall x hx)
    have h1 : ∀ y, y ∈ toggleAll visibleIds prev ↔ y ∈ prev ∨ y ∈ visibleIds :=
      toggleAll_mem_not_all hnot
    have hall2 : ∀ id ∈ visibleIds, id ∈ toggleAll visibleIds prev :=
      fun id hid => (h1 id).mpr (Or.inr hid)
    rw [toggleAll_mem_all hall2 x, h1 x]
    have hp := h x hx
    tauto

/-- C2 witness: with both visible rows selected beforehand, two select-all
toggles restore id 1's membership. -/
theorem toggleAll_twice_restores_witness :
    ((∀ id ∈ [Sum.inr 1, Sum.inr 2],
        id ∈ ({Sum.inr 1, Sum.inr 2} : Finset RowId)) ∨
      (∀ id ∈ [Sum.inr 1, Sum.inr 2],
        id ∉ ({Sum.inr 1, Sum.inr 2} : Finset RowId))) ∧
    (Sum.inr 1 : RowId) ∈ ([Sum.inr 1, Sum.inr 2] : List RowId) ∧
    ((Sum.inr 1 : RowId) ∈
        toggleAll [Sum.inr 1, Sum.inr 2]
          (toggleAll [Sum.inr 1, Sum.inr 2]
            ({Sum.inr 1, Sum.inr 2} : Finset RowId)) ↔
      (Sum.inr 1 : RowId) ∈ ({Sum.inr 1, Sum.inr 2} : Finset RowId)) :=
  ⟨Or.inl (by intro id hid; fin_cases hid <;> decide), by simp,
    toggleAll_twice_restores [Sum.inr 1, Sum.inr 2] {Sum.inr 1, Sum.inr 2}
      (Or.inl (by intro id hid; fin_cases hid <;> decide)) (Sum.inr 1)
      (by simp)⟩

/-! ### C4: pagination -/

lemma chunks_eq_take {α : Type} (p : Nat) :
    ∀ (t : Nat) (l : List α),
      ((List.range t).flatMap fun k => (l.drop (k * p)).take p) =
        l.take (t * p)
  | 0, _ => by simp
  | t + 1, l => by
      rw [List.range_succ, List.flatMap_append, chunks_eq_take p t l,
        List.flatMap_singleton, show (t + 1) * p = t * p + p by ring,
        List.take_add]

lemma ceil_div_mul_le (n p : Nat) (hp : 1 ≤ p) :
    n ≤ (n + p - 1) / p * p := by
  have h : n + p - 1 < (n + p - 1) / p * p + p := Nat.lt_div_mul_add hp
  obtain ⟨m, hm⟩ : ∃ m, (n + p - 1) / p * p = m := ⟨_, rfl⟩
  rw [hm] at h ⊢
  omega

lemma le_totalPages_mul (n p : Nat) (hp : 1 ≤ p) :
    n ≤ totalPages n p * p := by
  have h := ceil_div_mul_le n p hp
  have h3 : (n + p - 1) / p ≤ totalPages n p := le_max_right 1 _
  have h4 : (n + p - 1) / p * p ≤ totalPages n p * p :=
    Nat.mul_le_mul_right p h3
  exact h.trans h4

lemma totalPages_mul_lt (n p : Nat) (hp : 1 ≤ p) :
    (n + p - 1) / p * p < n + p := by
  have h := Nat.div_mul_le_self (n + p - 1) p
  obtain ⟨m, hm⟩ : ∃ m, (n + p - 1) / p * p = m := ⟨_, rfl⟩
  rw [hm] at h ⊢
  omega

lemma totalPages_eq_ceil (n p : Nat) (hp : 1 ≤ p) :
    (totalPages n p : ℤ) = max 1 ⌈(n : ℚ) / (p : ℚ)⌉ := by
  have hp0 : (0 : ℚ) < (p : ℚ) := by exact_mod_cast hp
  have hub := ceil_div_mul_le n p hp
  have hlb := totalPages_mul_lt n p hp
  have hceil : ⌈(n : ℚ) / (p : ℚ)⌉ = ((n + p - 1) / p : ℕ) := by
    rw [Int.ceil_eq_iff]
    constructor
    · rw [lt_div_iff₀ hp0]
      have h2 : (((n + p - 1) / p : ℕ) : ℚ) * (p : ℚ) < (n : ℚ) + (p : ℚ) := by
        exact_mod_cast hlb
      simp only [Int.cast_natCast]
      linarith
    · rw [div_le_iff₀ hp0]
      have h2 : ((n : ℚ)) ≤ (((n + p - 1) / p : ℕ) : ℚ) * (p : ℚ) := by
        exact_mod_cast hub
      simp only [Int.cast_natCast]
      linarith
  rw [totalPages, hceil]
  push_cast
  rfl

/-- C4: for page size `p ≥ 1` and a sorted sequence of any length, the
derived total-pages is `max 1 ⌈n / p⌉`; for a requested page ≥ 1 (an
invariant of the component state) the page used for slicing is the
requested page clamped into `[1, totalPages]`; the visible slice is the
window of `p` records starting at `(clamped - 1) * p`; and concatenating
the slices of pages `1 .. totalPages` reconstructs the sorted sequence. -/
theorem pagination_spec (l : List Row) (p cp : Nat) (hp : 1 ≤ p)
    (hcp : 1 ≤ cp) :
    (totalPages l.length p : ℤ) = max 1 ⌈(l.length : ℚ) / (p : ℚ)⌉ ∧
    safeCurrentPage cp (totalPages l.length p) =
      max 1 (min cp (totalPages l.length p)) ∧
    paginated l p cp =
      (l.drop ((safeCurrentPage cp (totalPages l.length p) - 1) * p)).take p ∧
    ((List.range (totalPages l.length p)).flatMap fun k =>
        (l.drop (k * p)).take p) = l := by
  refine ⟨totalPages_eq_ceil l.length p hp, ?_, rfl, ?_⟩
  · have h1 : 1 ≤ totalPages l.length p := le_max_left 1 _
    simp only [safeCurrentPage]
    omega
  · rw [chunks_eq_take]
    exact List.take_of_length_le (le_totalPages_mul l.length p hp)

/-- C4 witness: three records, page size 2, requested page 5: the slices
of pages 1 and 2 (total pages = 2) reconstruct the list. -/
theorem pagination_spec_witness :
    1 ≤ 2 ∧ 1 ≤ 5 ∧
    ((List.range (totalPages ([rBa, rBa, rBa] : List Row).length 2)).flatMap
        fun k => (([rBa, rBa, rBa] : List Row).drop (k * 2)).take 2) =
      [rBa, rBa, rBa] :=
  ⟨by decide, by decide,
    (pagination_spec [rBa, rBa, rBa] 2 5 (by decide) (by decide)).2.2.2⟩

/-! ### C8: the page-button window -/

/-- C8: for `1 ≤ cp ≤ t` the rendered page buttons are exactly the window
of `min 5 t` consecutive page numbers starting at
`max 1 (min (cp - 2) (t - 4))` (the `page > totalPages` guard never
fires), so there are at most 5 of them, all lie in `[1, t]`, the current
page is always among them, and whenever a centered window fits
(`3 ≤ cp` and `cp + 2 ≤ t`) the window is exactly
`[cp-2, cp-1, cp, cp+1, cp+2]`. -/
theorem pageButtons_spec (t cp : Int) (h1 : 1 ≤ cp) (h2 : cp ≤ t) :
    pageButtons cp t =
      (List.range (min 5 t).toNat).map
        (fun (i : Nat) => max 1 (min (cp - 2) (t - 4)) + (i : Int)) ∧
    (pageButtons cp t).length ≤ 5 ∧
    (∀ x ∈ pageButtons cp t, 1 ≤ x ∧ x ≤ t) ∧
    cp ∈ pageButtons cp t ∧
    (3 ≤ cp → cp + 2 ≤ t →
      pageButtons cp t = [cp - 2, cp - 1, cp, cp + 1, cp + 2]) := by
  have hfilter : pageButtons cp t =
      (List.range (min 5 t).toNat).map
        (fun (i : Nat) => max 1 (min (cp - 2) (t - 4)) + (i : Int)) := by
    rw [pageButtons]
    apply List.filter_eq_self.mpr
    intro a ha
    simp only [List.mem_map, List.mem_range] at ha
    obtain ⟨i, hi, rfl⟩ := ha
    simp only [decide_eq_true_eq]
    simp only [max_def, min_def] at hi ⊢
    split_ifs at hi ⊢ <;> omega
  refine ⟨hfilter, ?_, ?_, ?_, ?_⟩
  · rw [hfilter, List.length_map, List.length_range]
    simp only [min_def]
    split_ifs <;> omega
  · rw [hfilter]
    intro x hx
    simp only [List.mem_map, List.mem_range] at hx
    obtain ⟨i, hi, rfl⟩ := hx
    simp only [max_def, min_def] at hi ⊢
    split_ifs at hi ⊢ <;> constructor <;> omega
  · rw [hfilter]
    simp only [List.mem_map, List.mem_range]
    refine ⟨(cp - max 1 (min (cp - 2) (t - 4))).toNat, ?_, ?_⟩ <;>
      (simp only [max_def, min_def]; split_ifs <;> omega)
  · intro h3 h4
    rw [hfilter]
    have h5 : (min 5 t).toNat = 5 := by
      simp only [min_def]
      split_ifs <;> omega
    have h6 : max 1 (min (cp - 2) (t - 4)) = cp - 2 := by
      simp only [max_def, min_def]
      split_ifs <;> omega
    rw [h5, h6, show List.range 5 = [0, 1, 2, 3, 4] from rfl]
    simp only [List.map_cons, List.map_nil, List.cons.injEq, and_true]
    refine ⟨by omega, by omega, by omega, by omega, by omega⟩

/-- C8 witness: 10 total pages, current page 4: the window is the five
pages 2..6 and contains the current page. -/
theorem pageButtons_spec_witness :
    (1 : Int) ≤ 4 ∧ (4 : Int) ≤ 10 ∧ (4 : Int) ∈ pageButtons 4 10 :=
  ⟨by decide, by decide,
    (pageButtons_spec 10 4 (by decide) (by decide)).2.2.2.1⟩

/-! ### C3: order properties of the sort stage -/

/-- The claim's adjacency property for two neighbouring rows of sorted
output: if both active-column values are non-null they compare `≤ 0`
ascending (resp. `≥ 0` descending) under `strCmp`, and a null value is
never followed by a non-null one (nulls form a suffix). -/
def adjOK (strCmp : String → String → Int) (k : String) (d : SortDir)
    (a b : Row) : Prop :=
  match a.cells k, b.cells k with
  | none, bv => bv = none
  | some _, none => True
  | some av, some bv =>
      match d with
      | SortDir.asc => strCmp av bv ≤ 0
      | SortDir.desc => 0 ≤ strCmp av bv

lemma jsCmp_le_adjOK (strCmp : String → String → Int) (k : String)
    (d : SortDir) :
    ∀ a b : Row, jsCmp strCmp k d a b ≤ 0 → adjOK strCmp k d a b := by
  intro a b h
  rcases d <;>
    (rcases ha : a.cells k with _ | av <;> rcases hb : b.cells k with _ | bv <;>
      simp only [jsCmp, adjOK, ha, hb] at h ⊢) <;>
    first
      | rfl
      | trivial
      | exact absurd h (by omega)
      | omega

lemma jsCmp_pos_adjOK (strCmp : String → String → Int)
    (htot : ∀ a b, 0 < strCmp a b → strCmp b a ≤ 0)
    (hneg : ∀ a b, strCmp a b < 0 → 0 ≤ strCmp b a)
    (k : String) (d : SortDir) :
    ∀ a b : Row, ¬ jsCmp strCmp k d a b ≤ 0 → adjOK strCmp k d b a := by
  intro a b h
  rcases d <;>
    (rcases ha : a.cells k with _ | av <;> rcases hb : b.cells k with _ | bv <;>
      simp only [jsCmp, adjOK, ha, hb] at h ⊢) <;>
    first
      | rfl
      | trivial
      | exact absurd h (by omega)
      | exact htot _ _ (by omega)
      | exact hneg _ _ (by omega)

lemma adjOK_null_propagates (strCmp : String → String → Int) (k : String)
    (d : SortDir) :
    ∀ a b : Row, adjOK strCmp k d a b → a.cells k = none →
      b.cells k = none := by
  intro a b h ha
  simp only [adjOK, ha] at h
  exact h

lemma chain'_insertBy {α : Type} {P : α → α → Prop} {cmp : α → α → Int}
    (h1 : ∀ x y, cmp x y ≤ 0 → P x y)
    (h2 : ∀ x y, ¬ cmp x y ≤ 0 → P y x) (x : α) :
    ∀ l : List α, l.Chain' P → (insertBy cmp x l).Chain' P
  | [], _ => by simp [insertBy]
  | y :: ys, hl => by
      simp only [insertBy]
      by_cases hxy : cmp x y ≤ 0
      · rw [if_pos hxy]
        exact List.chain'_cons.mpr ⟨h1 x y hxy, hl⟩
      · rw [if_neg hxy]
        have hys := (List.chain'_cons'.mp hl).2
        have hhead := (List.chain'_cons'.mp hl).1
        refine List.chain'_cons'.mpr ⟨?_, chain'_insertBy h1 h2 x ys hys⟩
        intro z hz
        cases ys with
        | nil =>
            simp only [insertBy, List.head?_cons, Option.mem_def,
              Option.some.injEq] at hz
            subst hz
            exact h2 x y hxy
        | cons w ws =>
            simp only [insertBy] at hz
            by_cases hxw : cmp x w ≤ 0
            · rw [if_pos hxw] at hz
              simp only [List.head?_cons, Option.mem_def,
                Option.some.injEq] at hz
              subst hz
              exact h2 x y hxy
            · rw [if_neg hxw] at hz
              simp only [List.head?_cons, Option.mem_def,
                Option.some.injEq] at hz
              subst hz
              exact hhead w (by simp)

lemma chain'_sortBy {α : Type} {P : α → α → Prop} {cmp : α → α → Int}
    (h1 : ∀ x y, cmp x y ≤ 0 → P x y)
    (h2 : ∀ x y, ¬ cmp x y ≤ 0 → P y x) :
    ∀ l : List α, (sortBy cmp l).Chain' P
  | [] => by simp [sortBy]
  | x :: xs => by
      simp only [sortBy]
      exact chain'_insertBy h1 h2 x _ (chain'_sortBy h1 h2 xs)

lemma chain'_all {α : Type} {P : α → α → Prop} {Q : α → Prop}
    (hPQ : ∀ a b, P a b → Q a → Q b) :
    ∀ (a : α) (l : List α), (a :: l).Chain' P → Q a → ∀ r ∈ a :: l, Q r
  | a, [], _, ha => by
      intro r hr
      simp only [List.mem_singleton] at hr
      subst hr
      exact ha
  | a, b :: l, h, ha => by
      have hab := (List.chain'_cons.mp h).1
      have hbl := (List.chain'_cons.mp h).2
      intro r hr
      rcases List.mem_cons.mp hr with rfl | hr
      · exact ha
      · exact chain'_all hPQ b l hbl (hPQ a b hab ha) r hr

lemma chain'_split {α : Type} {P : α → α → Prop} {Q : α → Prop}
    (hPQ : ∀ a b, P a b → Q a → Q b) :
    ∀ l : List α, l.Chain' P →
      ∃ xs ys, l = xs ++ ys ∧ (∀ r ∈ xs, ¬ Q r) ∧ ∀ r ∈ ys, Q r
  | [], _ => ⟨[], [], rfl, by simp, by simp⟩
  | a :: l, h => by
      rcases Classical.em (Q a) with hQ | hQ
      · exact ⟨[], a :: l, rfl, by simp, chain'_all hPQ a l h hQ⟩
      · obtain ⟨xs, ys, heq, hxs, hys⟩ :=
          chain'_split hPQ l (List.chain'_cons'.mp h).2
        refine ⟨a :: xs, ys, by rw [heq, List.cons_append], ?_, hys⟩
        intro r hr
        rcases List.mem_cons.mp hr with rfl | hr
        · exact hQ
        · exact hxs r hr

/-- C3 (amended): for every comparator `strCmp` whose signs are consistent
(as ECMAScript requires of `localeCompare`) and every *non-empty* active
column key, the sort stage's output has all adjacent non-null pairs
ordered by the comparator (reversed for descending) and all null-valued
records at the end. The non-emptiness proviso is forced by the code's
JS-falsiness test on the sort key. -/
theorem sorted_adjacent_spec (strCmp : String → String → Int)
    (htot : ∀ a b, 0 < strCmp a b → strCmp b a ≤ 0)
    (hneg : ∀ a b, strCmp a b < 0 → 0 ≤ strCmp b a)
    (k : String) (hk : k ≠ "") (d : SortDir) (l : List Row) :
    (sorted strCmp (some k) (some d) l).Chain' (adjOK strCmp k d) ∧
    ∃ xs ys, sorted strCmp (some k) (some d) l = xs ++ ys ∧
      (∀ r ∈ xs, r.cells k ≠ none) ∧ ∀ r ∈ ys, r.cells k = none := by
  have hchain : (sortBy (jsCmp strCmp k d) l).Chain' (adjOK strCmp k d) :=
    chain'_sortBy (jsCmp_le_adjOK strCmp k d)
      (jsCmp_pos_adjOK strCmp htot hneg k d) l
  have hsorted : sorted strCmp (some k) (some d) l =
      sortBy (jsCmp strCmp k d) l := by
    simp [sorted, hk]
  rw [hsorted]
  exact ⟨hchain,
    chain'_split (adjOK_null_propagates strCmp k d) _ hchain⟩

/-- The code point of a string's first character (0 if empty). -/
def keyOf (s : String) : Nat :=
  match s.data with
  | [] => 0
  | c :: _ => c.toNat

/-- A concrete sign-consistent comparator (difference of first code
points), standing in for `localeCompare` in concrete instances; on the
one-letter strings used below, the real
`localeCompare(·, ·, {numeric: true})` orders the same way. -/
def headCmp (a b : String) : Int :=
  (keyOf a : Int) - (keyOf b : Int)

lemma headCmp_tot : ∀ a b : String, 0 < headCmp a b → headCmp b a ≤ 0 := by
  intro a b h
  unfold headCmp at h ⊢
  omega

lemma headCmp_neg : ∀ a b : String, headCmp a b < 0 → 0 ≤ headCmp b a := by
  intro a b h
  unfold headCmp at h ⊢
  omega

/-- A record whose every field value is the string `"b"`. -/
def rValB : Row := ⟨Sum.inr 1, fun _ => some "b"⟩

/-- A record whose every field value is the string `"a"`. -/
def rValA : Row := ⟨Sum.inr 2, fun _ => some "a"⟩

/-- C3 counterexample: with the active sort column key `""` (a legal TS
column key) and direction ascending, `!sortKey` is truthy, so the sort
stage returns the filtered list unchanged even though an active sort
column and direction are set: the adjacent non-null values `"b"`, `"a"`
violate the ascending comparator ordering (`headCmp "b" "a" = 1`, as does
`localeCompare`). -/
theorem sorted_emptykey_counterexample :
    headCmp "b" "a" = 1 ∧
    sorted headCmp (some "") (some SortDir.asc) [rValB, rValA] =
      [rValB, rValA] ∧
    ¬ (sorted headCmp (some "") (some SortDir.asc) [rValB, rValA]).Chain'
        (adjOK headCmp "" SortDir.asc) := by
  refine ⟨by decide, rfl, ?_⟩
  intro h
  rw [show sorted headCmp (some "") (some SortDir.asc) [rValB, rValA] =
      [rValB, rValA] from rfl] at h
  have h2 := (List.chain'_cons.mp h).1
  simp only [adjOK, rValB, rValA] at h2
  revert h2
  decide

/-- C3 witness: the amended theorem applied to `headCmp`, the column
`name` and a singleton list. -/
theorem sorted_adjacent_spec_witness :
    ("name" : String) ≠ "" ∧
    (sorted headCmp (some "name") (some SortDir.asc) [rBa]).Chain'
      (adjOK headCmp "name" SortDir.asc) :=
  ⟨by decide,
    (sorted_adjacent_spec headCmp headCmp_tot headCmp_neg "name" (by decide)
      SortDir.asc [rBa]).1⟩

end DataTable
